import Mathlib

set_option maxHeartbeats 1000000

/-! Formal model of the core logic of the latency-explorer repository:
the edge-location directory (`src/data/edges.ts`) and the SSE stream
reassembly loop of the chat client (`client/src/App.tsx`).

Numbers are modelled as follows: the coordinates of the static table are
the exact decimal literals of the source, read as rationals; arithmetic
inside `haversineDistance` runs over a model of JavaScript numbers with
the special values `NaN`, `Infinity` and `-Infinity` made explicit and
the finite fragment idealized as real numbers. -/

/-- Model of the `EdgeLocation` interface of `src/data/edges.ts`. -/
structure EdgeLocation where
  code : String
  city : String
  country : String
  lat : ℚ
  lng : ℚ
deriving DecidableEq, Inhabited, Repr

/-- A coordinate with two decimal places: `q n` is the exact rational
`n / 100`, so that `q 3736` is the source literal `37.36`.  Written with
`mkRat` so that proofs about the table can be settled by `decide`. -/
def q (n : ℤ) : ℚ := mkRat n 100

/-- The static table `EDGE_LOCATIONS` of `src/data/edges.ts`, entry for
entry; each decimal coordinate literal `d.dd` is written `q ddd`. -/
def EDGE_LOCATIONS : List EdgeLocation := [
  ⟨"SJC", "San Jose", "US", q 3736, q (-12193)⟩,
  ⟨"LAX", "Los Angeles", "US", q 3394, q (-11841)⟩,
  ⟨"SEA", "Seattle", "US", q 4745, q (-12231)⟩,
  ⟨"ORD", "Chicago", "US", q 4197, q (-8791)⟩,
  ⟨"IAD", "Washington DC", "US", q 3895, q (-7746)⟩,
  ⟨"EWR", "Newark", "US", q 4069, q (-7417)⟩,
  ⟨"MIA", "Miami", "US", q 2580, q (-8029)⟩,
  ⟨"DFW", "Dallas", "US", q 3290, q (-9704)⟩,
  ⟨"ATL", "Atlanta", "US", q 3364, q (-8443)⟩,
  ⟨"DEN", "Denver", "US", q 3986, q (-10467)⟩,
  ⟨"PHX", "Phoenix", "US", q 3343, q (-11201)⟩,
  ⟨"YYZ", "Toronto", "CA", q 4368, q (-7963)⟩,
  ⟨"YVR", "Vancouver", "CA", q 4919, q (-12318)⟩,
  ⟨"MEX", "Mexico City", "MX", q 1944, q (-9907)⟩,
  ⟨"LHR", "London", "GB", q 5147, q (-45)⟩,
  ⟨"AMS", "Amsterdam", "NL", q 5231, q 477⟩,
  ⟨"FRA", "Frankfurt", "DE", q 5004, q 856⟩,
  ⟨"CDG", "Paris", "FR", q 4901, q 255⟩,
  ⟨"MAD", "Madrid", "ES", q 4047, q (-356)⟩,
  ⟨"MXP", "Milan", "IT", q 4563, q 872⟩,
  ⟨"ZRH", "Zurich", "CH", q 4746, q 856⟩,
  ⟨"VIE", "Vienna", "AT", q 4811, q 1657⟩,
  ⟨"WAW", "Warsaw", "PL", q 5217, q 2097⟩,
  ⟨"ARN", "Stockholm", "SE", q 5965, q 1795⟩,
  ⟨"HEL", "Helsinki", "FI", q 6032, q 2496⟩,
  ⟨"DUB", "Dublin", "IE", q 5343, q (-625)⟩,
  ⟨"NRT", "Tokyo", "JP", q 3577, q 14039⟩,
  ⟨"HND", "Tokyo Haneda", "JP", q 3555, q 13978⟩,
  ⟨"SIN", "Singapore", "SG", q 136, q 10399⟩,
  ⟨"HKG", "Hong Kong", "HK", q 2231, q 11392⟩,
  ⟨"ICN", "Seoul", "KR", q 3746, q 12644⟩,
  ⟨"SYD", "Sydney", "AU", q (-3394), q 15118⟩,
  ⟨"MEL", "Melbourne", "AU", q (-3767), q 14484⟩,
  ⟨"BOM", "Mumbai", "IN", q 1909, q 7287⟩,
  ⟨"DEL", "New Delhi", "IN", q 2856, q 7710⟩,
  ⟨"BKK", "Bangkok", "TH", q 1369, q 10075⟩,
  ⟨"KUL", "Kuala Lumpur", "MY", q 275, q 10171⟩,
  ⟨"CGK", "Jakarta", "ID", q (-613), q 10666⟩,
  ⟨"MNL", "Manila", "PH", q 1451, q 12102⟩,
  ⟨"TPE", "Taipei", "TW", q 2508, q 12123⟩,
  ⟨"GRU", "Sao Paulo", "BR", q (-2344), q (-4647)⟩,
  ⟨"GIG", "Rio de Janeiro", "BR", q (-2281), q (-4325)⟩,
  ⟨"EZE", "Buenos Aires", "AR", q (-3482), q (-5854)⟩,
  ⟨"SCL", "Santiago", "CL", q (-3339), q (-7079)⟩,
  ⟨"BOG", "Bogota", "CO", q 470, q (-7415)⟩,
  ⟨"LIM", "Lima", "PE", q (-1202), q (-7711)⟩,
  ⟨"JNB", "Johannesburg", "ZA", q (-2614), q 2824⟩,
  ⟨"CPT", "Cape Town", "ZA", q (-3397), q 1860⟩,
  ⟨"DXB", "Dubai", "AE", q 2525, q 5536⟩,
  ⟨"TLV", "Tel Aviv", "IL", q 3201, q 3489⟩,
  ⟨"CAI", "Cairo", "EG", q 3011, q 3140⟩,
  ⟨"NBO", "Nairobi", "KE", q (-132), q 3693⟩,
  ⟨"LOS", "Lagos", "NG", q 658, q 332⟩]

/-- Model of `getEdgeByCode` of `src/data/edges.ts`:
`EDGE_LOCATIONS.find((e) => e.code === code)`. -/
def getEdgeByCode (code : String) : Option EdgeLocation :=
  EDGE_LOCATIONS.find? (fun e => e.code == code)

/-- The first entry of the table, used as a concrete witness input. -/
def sjcEdge : EdgeLocation := ⟨"SJC", "San Jose", "US", q 3736, q (-12193)⟩

/-! JavaScript number model: `NaN`, the two infinities, and finite values
idealized as real numbers.  Only the operations used by
`haversineDistance`/`findNearestEdge` are modelled, each following the
ECMAScript semantics for the special values. -/

inductive JsNumber where
  | nan : JsNumber
  | inf : JsNumber
  | ninf : JsNumber
  | fin : ℝ → JsNumber

namespace JsNumber

/-- JavaScript addition. -/
noncomputable def add : JsNumber → JsNumber → JsNumber
  | nan, _ => nan
  | _, nan => nan
  | inf, ninf => nan
  | ninf, inf => nan
  | inf, _ => inf
  | _, inf => inf
  | ninf, _ => ninf
  | _, ninf => ninf
  | fin a, fin b => fin (a + b)

/-- JavaScript subtraction. -/
noncomputable def sub : JsNumber → JsNumber → JsNumber
  | nan, _ => nan
  | _, nan => nan
  | inf, inf => nan
  | ninf, ninf => nan
  | inf, _ => inf
  | ninf, _ => ninf
  | fin _, inf => ninf
  | fin _, ninf => inf
  | fin a, fin b => fin (a - b)

open Classical in
/-- JavaScript multiplication (`Infinity * 0` is `NaN`). -/
noncomputable def mul : JsNumber → JsNumber → JsNumber
  | nan, _ => nan
  | _, nan => nan
  | inf, inf => inf
  | inf, ninf => ninf
  | ninf, inf => ninf
  | ninf, ninf => inf
  | inf, fin x => if x = 0 then nan else if 0 < x then inf else ninf
  | fin x, inf => if x = 0 then nan else if 0 < x then inf else ninf
  | ninf, fin x => if x = 0 then nan else if 0 < x then ninf else inf
  | fin x, ninf => if x = 0 then nan else if 0 < x then ninf else inf
  | fin a, fin b => fin (a * b)

open Classical in
/-- JavaScript division (signed zero is not representable, so `x / 0`
takes the sign of `x`). -/
noncomputable def div : JsNumber → JsNumber → JsNumber
  | nan, _ => nan
  | _, nan => nan
  | inf, inf => nan
  | inf, ninf => nan
  | ninf, inf => nan
  | ninf, ninf => nan
  | inf, fin x => if 0 ≤ x then inf else ninf
  | ninf, fin x => if 0 ≤ x then ninf else inf
  | fin _, inf => fin 0
  | fin _, ninf => fin 0
  | fin a, fin b =>
      if b = 0 then (if a = 0 then nan else if 0 < a then inf else ninf)
      else fin (a / b)

/-- `Math.sin`: `NaN` on every non-finite input. -/
noncomputable def sin : JsNumber → JsNumber
  | fin x => fin (Real.sin x)
  | _ => nan

/-- `Math.cos`: `NaN` on every non-finite input. -/
noncomputable def cos : JsNumber → JsNumber
  | fin x => fin (Real.cos x)
  | _ => nan

open Classical in
/-- `Math.sqrt`: `NaN` on negative or `NaN` input, `Infinity` at
`Infinity`. -/
noncomputable def sqrt : JsNumber → JsNumber
  | nan => nan
  | inf => inf
  | ninf => nan
  | fin x => if x < 0 then nan else fin (Real.sqrt x)

/-- `x ** 2` of the source, i.e. squaring. -/
noncomputable def sq (x : JsNumber) : JsNumber := mul x x

/-- JavaScript strict `<`; any comparison with `NaN` is false. -/
def lt : JsNumber → JsNumber → Prop
  | nan, _ => False
  | _, nan => False
  | inf, _ => False
  | ninf, ninf => False
  | ninf, _ => True
  | fin _, inf => True
  | fin _, ninf => False
  | fin a, fin b => a < b

end JsNumber

open Classical in
/-- The two-argument arctangent on real arguments, following the usual
`Math.atan2` branch structure. -/
noncomputable def atan2R (v u : ℝ) : ℝ :=
  if 0 < u then Real.arctan (v / u)
  else if u < 0 ∧ 0 ≤ v then Real.arctan (v / u) + Real.pi
  else if u < 0 then Real.arctan (v / u) - Real.pi
  else if u = 0 ∧ 0 < v then Real.pi / 2
  else if u = 0 ∧ v < 0 then -(Real.pi / 2)
  else 0

namespace JsNumber

open Classical in
/-- `Math.atan2` on the JavaScript number model. -/
noncomputable def atan2 : JsNumber → JsNumber → JsNumber
  | nan, _ => nan
  | _, nan => nan
  | inf, inf => fin (Real.pi / 4)
  | inf, ninf => fin (3 * Real.pi / 4)
  | ninf, inf => fin (-(Real.pi / 4))
  | ninf, ninf => fin (-(3 * Real.pi / 4))
  | inf, fin _ => fin (Real.pi / 2)
  | ninf, fin _ => fin (-(Real.pi / 2))
  | fin _, inf => fin 0
  | fin v, ninf => fin (if 0 ≤ v then Real.pi else -Real.pi)
  | fin v, fin u => fin (atan2R v u)

end JsNumber

/-- Model of `toRad` of `src/data/edges.ts`: `(deg * Math.PI) / 180`. -/
noncomputable def toRad (deg : JsNumber) : JsNumber :=
  JsNumber.div (JsNumber.mul deg (JsNumber.fin Real.pi)) (JsNumber.fin 180)

/-- Model of `haversineDistance` of `src/data/edges.ts`: the Haversine
formula with `R = 6371`, written over the JavaScript number model. -/
noncomputable def haversineDistance (lat1 lng1 lat2 lng2 : JsNumber) : JsNumber :=
  let dLat := toRad (JsNumber.sub lat2 lat1)
  let dLng := toRad (JsNumber.sub lng2 lng1)
  let a := JsNumber.add
    (JsNumber.sq (JsNumber.sin (JsNumber.div dLat (JsNumber.fin 2))))
    (JsNumber.mul
      (JsNumber.mul (JsNumber.cos (toRad lat1)) (JsNumber.cos (toRad lat2)))
      (JsNumber.sq (JsNumber.sin (JsNumber.div dLng (JsNumber.fin 2)))))
  JsNumber.mul (JsNumber.mul (JsNumber.fin 6371) (JsNumber.fin 2))
    (JsNumber.atan2 (JsNumber.sqrt a) (JsNumber.sqrt (JsNumber.sub (JsNumber.fin 1) a)))

open Classical in
/-- Model of `findNearestEdge` of `src/data/edges.ts`: a linear scan with
a running minimum started at `EDGE_LOCATIONS[0]` and `Infinity`, updating
on strict `<`. -/
noncomputable def findNearestEdge (lat lng : JsNumber) : EdgeLocation :=
  (EDGE_LOCATIONS.foldl
    (fun st edge =>
      let dist := haversineDistance lat lng
        (JsNumber.fin edge.lat) (JsNumber.fin edge.lng)
      if JsNumber.lt dist st.2 then (edge, dist) else st)
    (EDGE_LOCATIONS.headI, JsNumber.inf)).1

/-! Real-number reading of the Haversine formula, used to describe what
`haversineDistance` computes on finite inputs. -/

/-- The intermediate value `a` of the Haversine formula, on reals. -/
noncomputable def havA (lat1 lng1 lat2 lng2 : ℝ) : ℝ :=
  Real.sin ((lat2 - lat1) * Real.pi / 180 / 2) *
      Real.sin ((lat2 - lat1) * Real.pi / 180 / 2) +
    Real.cos (lat1 * Real.pi / 180) * Real.cos (lat2 * Real.pi / 180) *
      (Real.sin ((lng2 - lng1) * Real.pi / 180 / 2) *
        Real.sin ((lng2 - lng1) * Real.pi / 180 / 2))

/-- The Haversine distance on reals. -/
noncomputable def havR (lat1 lng1 lat2 lng2 : ℝ) : ℝ :=
  6371 * 2 * atan2R (Real.sqrt (havA lat1 lng1 lat2 lng2))
    (Real.sqrt (1 - havA lat1 lng1 lat2 lng2))

/-! Analysis of the linear scan of `findNearestEdge`. -/

open Classical in
/-- The scan of `findNearestEdge`, abstracted over the real distance
function `d` of each candidate. -/
noncomputable def scanFold (d : EdgeLocation → ℝ) (l : List EdgeLocation)
    (st : EdgeLocation × JsNumber) : EdgeLocation × JsNumber :=
  l.foldl (fun st e =>
    if JsNumber.lt (JsNumber.fin (d e)) st.2 then (e, JsNumber.fin (d e)) else st) st

/-! Model of the SSE stream-reassembly loop of `handleSendMessage` in
`client/src/App.tsx`.  Decoded text is modelled as `List Char`, received
chunks as lists of bytes (`List Nat`); `fullResponse` of the source is
called `accumulated` here. -/

/-- Outcome of the `try { const parsed = JSON.parse(data); if
(parsed.response) ... }` block of the source for one payload: the block
throws (`JSON.parse` failure, or reading `.response` of `null`), or it
finds no truthy `response` field, or it finds one whose appended text is
the given string.  `JSON.parse` is a host builtin, so it enters the model
abstractly as a function from payload text to outcome. -/
inductive ParseOutcome where
  | failure : ParseOutcome
  | parsedNoResponse : ParseOutcome
  | parsedResponse : List Char → ParseOutcome

/-- A parse function modelling a payload on which `JSON.parse` throws. -/
def parseNever : List Char → ParseOutcome := fun _ => ParseOutcome.failure

/-- A parse function modelling payloads that parse but carry no truthy
`response` field. -/
def parseNoResp : List Char → ParseOutcome := fun _ => ParseOutcome.parsedNoResponse

/-- The whitespace class of JavaScript `String.prototype.trim`. -/
def isJsWhitespace (c : Char) : Bool :=
  c == ' ' || c == '\t' || c == '\n' || c == '\r' || c == '\x0b' || c == '\x0c' ||
  c == ' ' || c == ' ' || c == ' ' || c == ' ' || c == ' ' ||
  c == ' ' || c == ' ' || c == ' ' || c == ' ' || c == ' ' ||
  c == ' ' || c == ' ' || c == ' ' || c == ' ' || c == ' ' ||
  c == ' ' || c == ' ' || c == '　' || c == '﻿'

/-- `line.trim()`. -/
def jsTrim (l : List Char) : List Char :=
  ((l.dropWhile isJsWhitespace).reverse.dropWhile isJsWhitespace).reverse

/-- The characters of the SSE marker `data: ` (with trailing space). -/
def dataMarker : List Char := ['d', 'a', 't', 'a', ':', ' ']

/-- The characters of the terminal sentinel payload `[DONE]`. -/
def doneSentinel : List Char := ['[', 'D', 'O', 'N', 'E', ']']

/-- `trimmed.startsWith(pattern)`: the first argument is the pattern. -/
def leadsWith : List Char → List Char → Bool
  | [], _ => true
  | _ :: _, [] => false
  | p :: ps, c :: cs => p == c && leadsWith ps cs

/-- The per-line rule of the source loop: trim the line; on a `data: `
line take the payload after the marker; skip `[DONE]`; otherwise append
either the parsed response text or, when the parse block throws, the raw
payload. -/
def processLine (parse : List Char → ParseOutcome) (acc : List Char)
    (line : List Char) : List Char :=
  let trimmed := jsTrim line
  if leadsWith dataMarker trimmed then
    let data := trimmed.drop 6
    if data = doneSentinel then acc
    else
      match parse data with
      | ParseOutcome.failure => acc ++ data
      | ParseOutcome.parsedNoResponse => acc
      | ParseOutcome.parsedResponse s => acc ++ s
  else acc

/-- `buffer.split("\n")`: the newline-separated segments, always a
nonempty list. -/
def splitNl : List Char → List (List Char)
  | [] => [[]]
  | c :: cs =>
      if c = '\n' then [] :: splitNl cs
      else (c :: (splitNl cs).headI) :: (splitNl cs).tail

/-- The line stage of the source loop for one chunk of decoded text:
`buffer += chunk; lines = buffer.split("\n"); buffer = lines.pop();` then
each complete line through the per-line rule. -/
def lineChunk (parse : List Char → ParseOutcome) (st : List Char × List Char)
    (text : List Char) : List Char × List Char :=
  let lines := splitNl (st.1 ++ text)
  (lines.getLastD [], lines.dropLast.foldl (processLine parse) st.2)

/-- Character-level reformulation of the line stage. -/
def lineStep (parse : List Char → ParseOutcome) (st : List Char × List Char)
    (c : Char) : List Char × List Char :=
  if c = '\n' then ([], processLine parse st.2 st.1) else (st.1 ++ [c], st.2)

/-! Incremental UTF-8 decoder, per the WHATWG byte-level state machine
that `TextDecoder.decode(value, { stream: true })` implements: incomplete
trailing multi-byte sequences are held back in the state; invalid bytes
emit U+FFFD. -/

structure Utf8State where
  codepoint : Nat
  needed : Nat
  lower : Nat
  upper : Nat
deriving DecidableEq, Repr

/-- The initial decoder state. -/
def utf8Init : Utf8State := ⟨0, 0, 0x80, 0xBF⟩

/-- Handle one byte from the initial (between-characters) state. -/
def utf8Start (b : Nat) : Utf8State × List Char :=
  if b ≤ 0x7F then (utf8Init, [Char.ofNat b])
  else if 0xC2 ≤ b ∧ b ≤ 0xDF then (⟨b &&& 0x1F, 1, 0x80, 0xBF⟩, [])
  else if b = 0xE0 then (⟨0, 2, 0xA0, 0xBF⟩, [])
  else if b = 0xED then (⟨0xD, 2, 0x80, 0x9F⟩, [])
  else if 0xE1 ≤ b ∧ b ≤ 0xEF then (⟨b &&& 0xF, 2, 0x80, 0xBF⟩, [])
  else if b = 0xF0 then (⟨0, 3, 0x90, 0xBF⟩, [])
  else if b = 0xF4 then (⟨4, 3, 0x80, 0x8F⟩, [])
  else if 0xF1 ≤ b ∧ b ≤ 0xF3 then (⟨b &&& 0x7, 3, 0x80, 0xBF⟩, [])
  else (utf8Init, [Char.ofNat 0xFFFD])

/-- One byte through the decoder: continuation bytes accumulate into the
pending codepoint; a byte outside the expected range emits U+FFFD and is
reprocessed from the initial state. -/
def utf8Step (s : Utf8State) (b : Nat) : Utf8State × List Char :=
  if s.needed = 0 then utf8Start b
  else if s.lower ≤ b ∧ b ≤ s.upper then
    (if s.needed = 1 then (utf8Init, [Char.ofNat ((s.codepoint <<< 6) ||| (b &&& 0x3F))])
    else (⟨(s.codepoint <<< 6) ||| (b &&& 0x3F), s.needed - 1, 0x80, 0xBF⟩, []))
  else
    ((utf8Start b).1, Char.ofNat 0xFFFD :: (utf8Start b).2)

/-- Decode one chunk of bytes, returning the new decoder state and the
emitted text. -/
def decodeChunk (s : Utf8State) (bs : List Nat) : Utf8State × List Char :=
  bs.foldl (fun p b => ((utf8Step p.1 b).1, p.2 ++ (utf8Step p.1 b).2)) (s, [])

/-- The client-side state of one in-flight exchange: the decoder state,
the retained partial line `buffer`, and the assembled answer
(`fullResponse` in the source). -/
structure ReassemblerState where
  dec : Utf8State
  buffer : List Char
  accumulated : List Char
deriving Repr

/-- The state at the start of an exchange. -/
def initReassembler : ReassemblerState := ⟨utf8Init, [], []⟩

/-- One received chunk of bytes through the loop body of the source:
decode (streaming), append to `buffer`, split on newlines, keep the last
segment as the new `buffer`, process each complete line. -/
def processChunk (parse : List Char → ParseOutcome) (st : ReassemblerState)
    (bs : List Nat) : ReassemblerState :=
  let d := decodeChunk st.dec bs
  let l := lineChunk parse (st.buffer, st.accumulated) d.2
  ⟨d.1, l.1, l.2⟩

/-- A whole exchange: the received chunks folded from the initial state.
When the source reports `done` the loop exits with this state — the
retained `buffer` is not processed further. -/
def runChunks (parse : List Char → ParseOutcome) (chunks : List (List Nat)) :
    ReassemblerState :=
  chunks.foldl (processChunk parse) initReassembler

/-- The characters of the line `data: [DONE]`. -/
def doneLine : List Char := ['d', 'a', 't', 'a', ':', ' ', '[', 'D', 'O', 'N', 'E', ']']

/-- The characters of the line `data: hello`. -/
def helloLine : List Char := ['d', 'a', 't', 'a', ':', ' ', 'h', 'e', 'l', 'l', 'o']

/-- The characters of `hello`. -/
def helloChars : List Char := ['h', 'e', 'l', 'l', 'o']

/-- The characters of the line `data: hi`. -/
def hiLine : List Char := ['d', 'a', 't', 'a', ':', ' ', 'h', 'i']

/-- The characters of `hi`. -/
def hiChars : List Char := ['h', 'i']

/-- On a list whose codes are pairwise distinct, `find?` by code returns
exactly the member carrying that code. -/
theorem find?_unique_code (code : String) :
    ∀ (l : List EdgeLocation), (l.map (fun e => e.code)).Nodup →
      ∀ e ∈ l, e.code = code → l.find? (fun x => x.code == code) = some e := by
  intro l
  induction l with
  | nil => intro _ e he; exact absurd he (List.not_mem_nil e)
  | cons a t ih =>
    intro hnd e he hcode
    have hnd' := hnd
    rw [List.map_cons, List.nodup_cons] at hnd'
    rcases List.mem_cons.mp he with rfl | het
    · simp [List.find?, hcode]
    · have hne : ¬ (a.code == code) = true := by
        intro hb
        have : a.code = code := by simpa using hb
        exact hnd'.1 (by
          rw [this, ← hcode]
          exact List.mem_map_of_mem (fun e => e.code) het)
      simp only [List.find?, hne]
      simpa using ih hnd'.2 e het hcode

/-- The codes of the table are pairwise distinct. -/
theorem edge_codes_nodup : (EDGE_LOCATIONS.map (fun e => e.code)).Nodup := by
  decide

/-- C9: the static edge table is well-formed: codes pairwise distinct,
latitudes in [-90, 90] and longitudes in [-180, 180]. -/
theorem edge_table_wellformed :
    (EDGE_LOCATIONS.map (fun e => e.code)).Nodup ∧
    ∀ e ∈ EDGE_LOCATIONS,
      (-90 ≤ e.lat ∧ e.lat ≤ 90) ∧ (-180 ≤ e.lng ∧ e.lng ≤ 180) := by
  exact ⟨edge_codes_nodup, by decide⟩

/-- Every table entry has latitude strictly inside (-90, 90) and longitude
strictly inside (-180, 180); used when proving distances positive. -/
theorem edge_table_bounds :
    ∀ e ∈ EDGE_LOCATIONS,
      (|e.lat| < 90 ∧ |e.lng| < 180) := by
  decide

/-- C7: `getEdgeByCode` is a pure exact-match lookup: a `some` answer is a
table member carrying exactly the requested code, absence holds iff no
entry has the code (and the function never fails), and an entry's own code
looks up that entry. -/
theorem getEdgeByCode_spec :
    ∀ code : String,
      (getEdgeByCode code = getEdgeByCode code) ∧
      (∀ e, getEdgeByCode code = some e → e ∈ EDGE_LOCATIONS ∧ e.code = code) ∧
      (getEdgeByCode code = none ↔ ∀ e ∈ EDGE_LOCATIONS, e.code ≠ code) ∧
      (∀ e ∈ EDGE_LOCATIONS, e.code = code → getEdgeByCode code = some e) := by
  intro code
  refine ⟨rfl, ?_, ?_, ?_⟩
  · intro e hfind
    refine ⟨List.mem_of_find?_eq_some hfind, ?_⟩
    have := List.find?_some hfind
    simpa using this
  · rw [getEdgeByCode, List.find?_eq_none]
    constructor
    · intro h e he hc
      exact h e he (by simpa using hc)
    · intro h e he hb
      exact h e he (by simpa using hb)
  · intro e he hcode
    exact find?_unique_code code EDGE_LOCATIONS edge_codes_nodup e he hcode

/-- Concrete check for C7: the code of the first table entry looks up that
entry. -/
theorem getEdgeByCode_spec_witness :
    getEdgeByCode sjcEdge.code = some sjcEdge :=
  (getEdgeByCode_spec sjcEdge.code).2.2.2 sjcEdge (by decide) rfl

/-- Folding lemma matching the raw formula back to `havA`. -/
theorem fold_havA (lat1 lng1 lat2 lng2 : ℝ) :
    Real.sin ((lat2 - lat1) * Real.pi / 180 / 2) *
        Real.sin ((lat2 - lat1) * Real.pi / 180 / 2) +
      Real.cos (lat1 * Real.pi / 180) * Real.cos (lat2 * Real.pi / 180) *
        (Real.sin ((lng2 - lng1) * Real.pi / 180 / 2) *
          Real.sin ((lng2 - lng1) * Real.pi / 180 / 2)) = havA lat1 lng1 lat2 lng2 :=
  rfl

/-- Half-angle identity in product form. -/
theorem sin_half_mul_self (t : ℝ) :
    Real.sin (t / 2) * Real.sin (t / 2) = 1 / 2 - Real.cos t / 2 := by
  have h := Real.sin_sq_eq_half_sub (t / 2)
  rw [pow_two] at h
  rw [show (2 : ℝ) * (t / 2) = t from by ring] at h
  exact h

/-- The Haversine `a` value always lies in `[0, 1]`, for all real inputs. -/
theorem havA_nonneg_le_one (x y a b : ℝ) : 0 ≤ havA x y a b ∧ havA x y a b ≤ 1 := by
  have hkey : havA x y a b =
      (1 - (Real.sin (x * Real.pi / 180) * Real.sin (a * Real.pi / 180) +
        Real.cos (x * Real.pi / 180) * Real.cos (a * Real.pi / 180) *
          Real.cos ((b - y) * Real.pi / 180))) / 2 := by
    rw [havA, sin_half_mul_self ((a - x) * Real.pi / 180),
      sin_half_mul_self ((b - y) * Real.pi / 180),
      show (a - x) * Real.pi / 180 = a * Real.pi / 180 - x * Real.pi / 180 from by ring,
      Real.cos_sub]
    ring
  constructor
  · rw [hkey]
    nlinarith [Real.sin_sq_add_cos_sq (x * Real.pi / 180),
      Real.sin_sq_add_cos_sq (a * Real.pi / 180),
      sq_nonneg (Real.sin (x * Real.pi / 180) - Real.sin (a * Real.pi / 180)),
      mul_nonneg (sub_nonneg.mpr (Real.cos_le_one ((b - y) * Real.pi / 180)))
        (sq_nonneg (Real.cos (x * Real.pi / 180) + Real.cos (a * Real.pi / 180))),
      mul_nonneg
        (by nlinarith [Real.neg_one_le_cos ((b - y) * Real.pi / 180)] :
          (0:ℝ) ≤ 1 + Real.cos ((b - y) * Real.pi / 180))
        (sq_nonneg (Real.cos (x * Real.pi / 180) - Real.cos (a * Real.pi / 180)))]
  · rw [hkey]
    nlinarith [Real.sin_sq_add_cos_sq (x * Real.pi / 180),
      Real.sin_sq_add_cos_sq (a * Real.pi / 180),
      sq_nonneg (Real.sin (x * Real.pi / 180) + Real.sin (a * Real.pi / 180)),
      mul_nonneg (sub_nonneg.mpr (Real.cos_le_one ((b - y) * Real.pi / 180)))
        (sq_nonneg (Real.cos (x * Real.pi / 180) - Real.cos (a * Real.pi / 180))),
      mul_nonneg
        (by nlinarith [Real.neg_one_le_cos ((b - y) * Real.pi / 180)] :
          (0:ℝ) ≤ 1 + Real.cos ((b - y) * Real.pi / 180))
        (sq_nonneg (Real.cos (x * Real.pi / 180) + Real.cos (a * Real.pi / 180)))]

/-- Division of finite values by the nonzero constant 180. -/
theorem div_fin_180 (a : ℝ) :
    JsNumber.div (JsNumber.fin a) (JsNumber.fin 180) = JsNumber.fin (a / 180) := by
  rw [JsNumber.div]
  norm_num

/-- Division of finite values by the nonzero constant 2. -/
theorem div_fin_two (a : ℝ) :
    JsNumber.div (JsNumber.fin a) (JsNumber.fin 2) = JsNumber.fin (a / 2) := by
  rw [JsNumber.div]
  norm_num

/-- On finite inputs, `haversineDistance` computes exactly the real
Haversine distance `havR`. -/
theorem hav_fin (x y a b : ℝ) :
    haversineDistance (JsNumber.fin x) (JsNumber.fin y)
      (JsNumber.fin a) (JsNumber.fin b) = JsNumber.fin (havR x y a b) := by
  obtain ⟨h0, h1⟩ := havA_nonneg_le_one x y a b
  have hs1 : JsNumber.sqrt (JsNumber.fin (havA x y a b)) =
      JsNumber.fin (Real.sqrt (havA x y a b)) := by
    rw [JsNumber.sqrt, if_neg (not_lt.mpr h0)]
  have hs2 : JsNumber.sqrt (JsNumber.fin (1 - havA x y a b)) =
      JsNumber.fin (Real.sqrt (1 - havA x y a b)) := by
    rw [JsNumber.sqrt, if_neg (not_lt.mpr (by linarith))]
  simp only [haversineDistance, toRad, JsNumber.sub, JsNumber.mul, JsNumber.sq,
    JsNumber.sin, JsNumber.cos, div_fin_180, div_fin_two, JsNumber.add, fold_havA]
  rw [hs1, hs2]
  simp only [JsNumber.atan2, JsNumber.mul, havR]

/-- The Haversine `a` value is symmetric in the two coordinate pairs. -/
theorem havA_symm (x y a b : ℝ) : havA x y a b = havA a b x y := by
  have hs : ∀ u v : ℝ,
      Real.sin ((u - v) * Real.pi / 180 / 2) * Real.sin ((u - v) * Real.pi / 180 / 2) =
      Real.sin ((v - u) * Real.pi / 180 / 2) * Real.sin ((v - u) * Real.pi / 180 / 2) := by
    intro u v
    rw [show (u - v) * Real.pi / 180 / 2 = -((v - u) * Real.pi / 180 / 2) from by ring,
      Real.sin_neg]
    ring
  rw [havA, havA, hs a x, hs b y]
  ring

/-- The real Haversine distance is symmetric. -/
theorem havR_symm (x y a b : ℝ) : havR x y a b = havR a b x y := by
  rw [havR, havR, havA_symm x y a b]

/-- The Haversine `a` value vanishes on the diagonal. -/
theorem havA_self (x y : ℝ) : havA x y x y = 0 := by
  rw [havA]
  norm_num

/-- The real Haversine distance vanishes on the diagonal. -/
theorem havR_self (x y : ℝ) : havR x y x y = 0 := by
  rw [havR, havA_self x y]
  norm_num [atan2R, Real.sqrt_zero, Real.sqrt_one, Real.arctan_zero]

/-- C8: on (finite) coordinate pairs, `haversineDistance` is symmetric in
its two coordinate pairs, and is zero on the diagonal. -/
theorem haversine_symm_zero :
    (∀ a1 a2 b1 b2 : ℝ,
        haversineDistance (JsNumber.fin a1) (JsNumber.fin a2)
            (JsNumber.fin b1) (JsNumber.fin b2) =
          haversineDistance (JsNumber.fin b1) (JsNumber.fin b2)
            (JsNumber.fin a1) (JsNumber.fin a2)) ∧
    (∀ a1 a2 : ℝ,
        haversineDistance (JsNumber.fin a1) (JsNumber.fin a2)
          (JsNumber.fin a1) (JsNumber.fin a2) = JsNumber.fin 0) := by
  constructor
  · intro a1 a2 b1 b2
    rw [hav_fin, hav_fin, havR_symm]
  · intro a1 a2
    rw [hav_fin, havR_self]

/-- `atan2R` is positive when its first argument is positive and its
second is nonnegative. -/
theorem atan2R_pos (v u : ℝ) (hv : 0 < v) (hu : 0 ≤ u) : 0 < atan2R v u := by
  rw [atan2R]
  split_ifs with h1 h2 h3 h4 h5
  · have h := Real.arctan_strictMono (div_pos hv h1)
    rwa [Real.arctan_zero] at h
  · exact absurd h2.1 (not_lt.mpr hu)
  · exact absurd h3 (not_lt.mpr hu)
  · exact half_pos Real.pi_pos
  · exact absurd h5.2 (not_lt.mpr hv.le)
  · have hu0 : u = 0 := le_antisymm (not_lt.mp h1) hu
    exact absurd ⟨hu0, hv⟩ h4

/-- The real Haversine distance is positive whenever its `a` value is. -/
theorem havR_pos (x y a b : ℝ) (h : 0 < havA x y a b) : 0 < havR x y a b := by
  rw [havR]
  have h1 : 0 < Real.sqrt (havA x y a b) := Real.sqrt_pos.mpr h
  have h2 : (0:ℝ) ≤ Real.sqrt (1 - havA x y a b) := Real.sqrt_nonneg _
  exact mul_pos (by norm_num) (atan2R_pos _ _ h1 h2)

/-- The sine of a nonzero angle of magnitude below π is nonzero. -/
theorem sin_ne_zero_of (u : ℝ) (h0 : u ≠ 0) (hb : |u| < Real.pi) :
    Real.sin u ≠ 0 := by
  rw [abs_lt] at hb
  rcases lt_or_gt_of_ne h0 with h | h
  · have hpos : 0 < Real.sin (-u) :=
      Real.sin_pos_of_pos_of_lt_pi (by linarith) (by linarith)
    rw [Real.sin_neg] at hpos
    exact ne_of_lt (by linarith)
  · exact (Real.sin_pos_of_pos_of_lt_pi h (by linarith)).ne'

/-- The Haversine `a` value is positive for distinct coordinate pairs
whose latitudes lie strictly inside (-90, 90) degrees and whose
longitudes lie strictly inside (-180, 180) degrees. -/
theorem havA_pos (x y a b : ℝ) (hx : |x| < 90) (ha : |a| < 90)
    (hy : |y| < 180) (hb : |b| < 180) (hne : x ≠ a ∨ y ≠ b) :
    0 < havA x y a b := by
  have hpi := Real.pi_pos
  rw [abs_lt] at hx ha hy hb
  have hcx : 0 < Real.cos (x * Real.pi / 180) := by
    apply Real.cos_pos_of_mem_Ioo
    constructor
    · nlinarith [mul_pos (show (0:ℝ) < x + 90 from by linarith) hpi]
    · nlinarith [mul_pos (show (0:ℝ) < 90 - x from by linarith) hpi]
  have hca : 0 < Real.cos (a * Real.pi / 180) := by
    apply Real.cos_pos_of_mem_Ioo
    constructor
    · nlinarith [mul_pos (show (0:ℝ) < a + 90 from by linarith) hpi]
    · nlinarith [mul_pos (show (0:ℝ) < 90 - a from by linarith) hpi]
  rcases hne with h | h
  · have hu0 : (a - x) * Real.pi / 180 / 2 ≠ 0 := by
      rw [show (a - x) * Real.pi / 180 / 2 = (a - x) * (Real.pi / 360) from by ring]
      exact mul_ne_zero (sub_ne_zero.mpr (Ne.symm h)) (by positivity)
    have hub : |(a - x) * Real.pi / 180 / 2| < Real.pi := by
      rw [abs_lt]
      constructor
      · nlinarith [mul_pos hpi (show (0:ℝ) < a - x + 360 from by linarith)]
      · nlinarith [mul_pos hpi (show (0:ℝ) < 360 - (a - x) from by linarith)]
    have hsin : 0 < Real.sin ((a - x) * Real.pi / 180 / 2) *
        Real.sin ((a - x) * Real.pi / 180 / 2) :=
      mul_self_pos.mpr (sin_ne_zero_of _ hu0 hub)
    have hterm2 : 0 ≤ Real.cos (x * Real.pi / 180) * Real.cos (a * Real.pi / 180) *
        (Real.sin ((b - y) * Real.pi / 180 / 2) * Real.sin ((b - y) * Real.pi / 180 / 2)) :=
      mul_nonneg (mul_nonneg hcx.le hca.le) (mul_self_nonneg _)
    rw [havA]
    linarith
  · have hv0 : (b - y) * Real.pi / 180 / 2 ≠ 0 := by
      rw [show (b - y) * Real.pi / 180 / 2 = (b - y) * (Real.pi / 360) from by ring]
      exact mul_ne_zero (sub_ne_zero.mpr (Ne.symm h)) (by positivity)
    have hvb : |(b - y) * Real.pi / 180 / 2| < Real.pi := by
      rw [abs_lt]
      constructor
      · nlinarith [mul_pos hpi (show (0:ℝ) < b - y + 720 from by linarith)]
      · nlinarith [mul_pos hpi (show (0:ℝ) < 720 - (b - y) from by linarith)]
    have hsin : 0 < Real.sin ((b - y) * Real.pi / 180 / 2) *
        Real.sin ((b - y) * Real.pi / 180 / 2) :=
      mul_self_pos.mpr (sin_ne_zero_of _ hv0 hvb)
    have hterm2 : 0 < Real.cos (x * Real.pi / 180) * Real.cos (a * Real.pi / 180) *
        (Real.sin ((b - y) * Real.pi / 180 / 2) * Real.sin ((b - y) * Real.pi / 180 / 2)) :=
      mul_pos (mul_pos hcx hca) hsin
    have hterm1 : 0 ≤ Real.sin ((a - x) * Real.pi / 180 / 2) *
        Real.sin ((a - x) * Real.pi / 180 / 2) := mul_self_nonneg _
    rw [havA]
    linarith

open Classical in
/-- Unfolding one scan step. -/
theorem scanFold_cons (d : EdgeLocation → ℝ) (c : EdgeLocation)
    (t : List EdgeLocation) (b : EdgeLocation) (m : JsNumber) :
    scanFold d (c :: t) (b, m) =
      scanFold d t
        (if JsNumber.lt (JsNumber.fin (d c)) m then (c, JsNumber.fin (d c)) else (b, m)) :=
  rfl

/-- A scan step on a strictly smaller distance updates the running pair. -/
theorem scanFold_cons_pos (d : EdgeLocation → ℝ) (c : EdgeLocation)
    (t : List EdgeLocation) (b : EdgeLocation) (m : JsNumber)
    (h : JsNumber.lt (JsNumber.fin (d c)) m) :
    scanFold d (c :: t) (b, m) = scanFold d t (c, JsNumber.fin (d c)) := by
  rw [scanFold_cons, if_pos h]

/-- A scan step on a distance that does not beat the minimum keeps the
state. -/
theorem scanFold_cons_neg (d : EdgeLocation → ℝ) (c : EdgeLocation)
    (t : List EdgeLocation) (b : EdgeLocation) (m : JsNumber)
    (h : ¬ JsNumber.lt (JsNumber.fin (d c)) m) :
    scanFold d (c :: t) (b, m) = scanFold d t (b, m) := by
  rw [scanFold_cons, if_neg h]

open Classical in
/-- `findNearestEdge` on finite inputs is the scan driven by the real
Haversine distance. -/
theorem findNearestEdge_eq_scan (x y : ℝ) :
    findNearestEdge (JsNumber.fin x) (JsNumber.fin y) =
      (scanFold (fun e => havR x y e.lat e.lng) EDGE_LOCATIONS
        (EDGE_LOCATIONS.headI, JsNumber.inf)).1 := by
  have hfun : (fun (st : EdgeLocation × JsNumber) (edge : EdgeLocation) =>
      let dist := haversineDistance (JsNumber.fin x) (JsNumber.fin y)
        (JsNumber.fin (edge.lat : ℝ)) (JsNumber.fin (edge.lng : ℝ))
      if JsNumber.lt dist st.2 then (edge, dist) else st) =
      (fun (st : EdgeLocation × JsNumber) (e : EdgeLocation) =>
        if JsNumber.lt (JsNumber.fin (havR x y (e.lat : ℝ) (e.lng : ℝ))) st.2
        then (e, JsNumber.fin (havR x y (e.lat : ℝ) (e.lng : ℝ))) else st) := by
    funext st e
    show (if JsNumber.lt (haversineDistance (JsNumber.fin x) (JsNumber.fin y)
        (JsNumber.fin (e.lat : ℝ)) (JsNumber.fin (e.lng : ℝ))) st.2
      then (e, haversineDistance (JsNumber.fin x) (JsNumber.fin y)
        (JsNumber.fin (e.lat : ℝ)) (JsNumber.fin (e.lng : ℝ)))
      else st) =
      (if JsNumber.lt (JsNumber.fin (havR x y (e.lat : ℝ) (e.lng : ℝ))) st.2
      then (e, JsNumber.fin (havR x y (e.lat : ℝ) (e.lng : ℝ))) else st)
    rw [hav_fin]
  rw [findNearestEdge, scanFold, hfun]

/-- First-minimum characterization of the scan: starting from a finite
running minimum, the scan either keeps its state (when nothing beats the
minimum) or returns the first strict improver that no later candidate
strictly beats. -/
theorem scan_spec (d : EdgeLocation → ℝ) :
    ∀ (l : List EdgeLocation) (b : EdgeLocation) (m : ℝ),
      (scanFold d l (b, JsNumber.fin m) = (b, JsNumber.fin m) ∧ ∀ e ∈ l, m ≤ d e) ∨
      (∃ pre er suf, l = pre ++ er :: suf ∧
        scanFold d l (b, JsNumber.fin m) = (er, JsNumber.fin (d er)) ∧
        d er < m ∧ (∀ e ∈ pre, d er < d e) ∧ (∀ e ∈ suf, d er ≤ d e)) := by
  intro l
  induction l with
  | nil =>
    intro b m
    left
    exact ⟨rfl, by simp⟩
  | cons c t ih =>
    intro b m
    by_cases hc : d c < m
    · have hc2 : JsNumber.lt (JsNumber.fin (d c)) (JsNumber.fin m) := hc
      have hstep := scanFold_cons_pos d c t b (JsNumber.fin m) hc2
      rcases ih c (d c) with ⟨heq, hall⟩ | ⟨pre, er, suf, hsplit, heq, hlt, hpre, hsuf⟩
      · right
        exact ⟨[], c, t, rfl, by rw [hstep, heq], hc, by simp, hall⟩
      · right
        refine ⟨c :: pre, er, suf, by rw [hsplit, List.cons_append],
          by rw [hstep, heq], lt_trans hlt hc, ?_, hsuf⟩
        intro e he
        rcases List.mem_cons.mp he with rfl | hin
        · exact hlt
        · exact hpre e hin
    · have hc2 : ¬ JsNumber.lt (JsNumber.fin (d c)) (JsNumber.fin m) := hc
      have hstep := scanFold_cons_neg d c t b (JsNumber.fin m) hc2
      have hmc : m ≤ d c := not_lt.mp hc
      rcases ih b m with ⟨heq, hall⟩ | ⟨pre, er, suf, hsplit, heq, hlt, hpre, hsuf⟩
      · left
        refine ⟨by rw [hstep, heq], ?_⟩
        intro e he
        rcases List.mem_cons.mp he with rfl | hin
        · exact hmc
        · exact hall e hin
      · right
        refine ⟨c :: pre, er, suf, by rw [hsplit, List.cons_append],
          by rw [hstep, heq], hlt, ?_, hsuf⟩
        intro e he
        rcases List.mem_cons.mp he with rfl | hin
        · exact lt_of_lt_of_le hlt hmc
        · exact hpre e hin

/-- The scan result decomposes the table as `pre ++ result :: suf` with
the result strictly closer than everything before it and at least as close
as everything after it. -/
theorem nearest_first_min (x y : ℝ) :
    ∃ pre suf,
      EDGE_LOCATIONS = pre ++ findNearestEdge (JsNumber.fin x) (JsNumber.fin y) :: suf ∧
      (∀ e ∈ pre,
        havR x y ((findNearestEdge (JsNumber.fin x) (JsNumber.fin y)).lat : ℝ)
            ((findNearestEdge (JsNumber.fin x) (JsNumber.fin y)).lng : ℝ) <
          havR x y e.lat e.lng) ∧
      (∀ e ∈ suf,
        havR x y ((findNearestEdge (JsNumber.fin x) (JsNumber.fin y)).lat : ℝ)
            ((findNearestEdge (JsNumber.fin x) (JsNumber.fin y)).lng : ℝ) ≤
          havR x y e.lat e.lng) := by
  have hne : EDGE_LOCATIONS ≠ [] := by decide
  obtain ⟨e0, rest, hE⟩ := List.exists_cons_of_ne_nil hne
  have hhead : EDGE_LOCATIONS.headI = e0 := by rw [hE]; rfl
  have hlt0 : JsNumber.lt
      (JsNumber.fin (havR x y (e0.lat : ℝ) (e0.lng : ℝ))) JsNumber.inf := trivial
  have hfirst : scanFold (fun e => havR x y e.lat e.lng) EDGE_LOCATIONS
      (EDGE_LOCATIONS.headI, JsNumber.inf) =
      scanFold (fun e => havR x y e.lat e.lng) rest
        (e0, JsNumber.fin (havR x y (e0.lat : ℝ) (e0.lng : ℝ))) := by
    rw [hhead, hE, scanFold_cons_pos _ _ _ _ _ hlt0]
  rcases scan_spec (fun e => havR x y e.lat e.lng) rest e0
      (havR x y (e0.lat : ℝ) (e0.lng : ℝ)) with
    ⟨heq, hall⟩ | ⟨pre, er, suf, hsplit, heq, hlt, hpre, hsuf⟩
  · have hr : findNearestEdge (JsNumber.fin x) (JsNumber.fin y) = e0 := by
      rw [findNearestEdge_eq_scan, hfirst, heq]
    refine ⟨[], rest, ?_, ?_, ?_⟩
    · rw [hr, hE]
      rfl
    · intro e he
      exact absurd he (List.not_mem_nil e)
    · intro e he
      rw [hr]
      exact hall e he
  · have hr : findNearestEdge (JsNumber.fin x) (JsNumber.fin y) = er := by
      rw [findNearestEdge_eq_scan, hfirst, heq]
    refine ⟨e0 :: pre, suf, ?_, ?_, ?_⟩
    · rw [hr, hE, hsplit, List.cons_append]
    · intro e he
      rw [hr]
      rcases List.mem_cons.mp he with rfl | hin
      · exact hlt
      · exact hpre e hin
    · intro e he
      rw [hr]
      exact hsuf e he

/-- C1: on finite coordinates, `findNearestEdge` splits the (nonempty)
table as `pre ++ result :: suf` where the result's Haversine distance to
the query is a minimum over the whole table and strictly below every
distance in `pre` (so exact ties resolve to the earliest entry); in
particular any table entry that is the unique minimizer of its own
coordinates is returned by self-lookup. -/
theorem findNearestEdge_minimizes :
    (∀ x y : ℝ, ∃ pre suf,
      EDGE_LOCATIONS = pre ++ findNearestEdge (JsNumber.fin x) (JsNumber.fin y) :: suf ∧
      (∀ e ∈ EDGE_LOCATIONS,
        havR x y ((findNearestEdge (JsNumber.fin x) (JsNumber.fin y)).lat : ℝ)
            ((findNearestEdge (JsNumber.fin x) (JsNumber.fin y)).lng : ℝ) ≤
          havR x y e.lat e.lng) ∧
      (∀ e ∈ pre,
        havR x y ((findNearestEdge (JsNumber.fin x) (JsNumber.fin y)).lat : ℝ)
            ((findNearestEdge (JsNumber.fin x) (JsNumber.fin y)).lng : ℝ) <
          havR x y e.lat e.lng)) ∧
    (∀ P ∈ EDGE_LOCATIONS,
      (∀ Q ∈ EDGE_LOCATIONS, Q ≠ P →
        havR P.lat P.lng P.lat P.lng < havR P.lat P.lng Q.lat Q.lng) →
      findNearestEdge (JsNumber.fin P.lat) (JsNumber.fin P.lng) = P) := by
  constructor
  · intro x y
    obtain ⟨pre, suf, hsplit, hpre, hsuf⟩ := nearest_first_min x y
    refine ⟨pre, suf, hsplit, ?_, hpre⟩
    intro e he
    rw [hsplit] at he
    rcases List.mem_append.mp he with hp | hc
    · exact le_of_lt (hpre e hp)
    · rcases List.mem_cons.mp hc with rfl | hs
      · exact le_refl _
      · exact hsuf e hs
  · intro P hP huniq
    obtain ⟨pre, suf, hsplit, hpre, hsuf⟩ := nearest_first_min (P.lat : ℝ) (P.lng : ℝ)
    by_contra hne
    have hrmem : findNearestEdge (JsNumber.fin (P.lat : ℝ)) (JsNumber.fin (P.lng : ℝ)) ∈
        EDGE_LOCATIONS := by
      rw [hsplit]
      exact List.mem_append.mpr (Or.inr (List.mem_cons_self _ _))
    have h1 := huniq _ hrmem hne
    rw [hsplit] at hP
    rcases List.mem_append.mp hP with hp | hc
    · exact lt_irrefl _ (lt_trans h1 (hpre P hp))
    · rcases List.mem_cons.mp hc with heq | hs
      · exact hne heq.symm
      · exact lt_irrefl _ (lt_of_lt_of_le h1 (hsuf P hs))

/-- Concrete check for C1: the first table entry (San Jose) is the unique
minimizer of its own coordinates, so self-lookup returns it. -/
theorem findNearestEdge_minimizes_witness :
    findNearestEdge (JsNumber.fin (sjcEdge.lat : ℝ)) (JsNumber.fin (sjcEdge.lng : ℝ)) =
      sjcEdge := by
  apply findNearestEdge_minimizes.2 sjcEdge (by decide)
  intro Q hQ hne
  rw [havR_self]
  apply havR_pos
  have htab : ∀ e ∈ EDGE_LOCATIONS, e = sjcEdge ∨ e.lat ≠ sjcEdge.lat := by decide
  apply havA_pos
  · obtain ⟨h1, _⟩ := edge_table_bounds sjcEdge (by decide)
    exact_mod_cast h1
  · obtain ⟨h1, _⟩ := edge_table_bounds Q hQ
    exact_mod_cast h1
  · obtain ⟨_, h2⟩ := edge_table_bounds sjcEdge (by decide)
    exact_mod_cast h2
  · obtain ⟨_, h2⟩ := edge_table_bounds Q hQ
    exact_mod_cast h2
  · rcases htab Q hQ with rfl | hlat
    · exact absurd rfl hne
    · left
      have hq : sjcEdge.lat ≠ Q.lat := fun hcontra => hlat hcontra.symm
      exact_mod_cast hq

/-! NaN propagation through the JavaScript number model. -/

namespace JsNumber

@[simp] theorem add_nan_left (x : JsNumber) : add nan x = nan := by cases x <;> rfl

@[simp] theorem add_nan_right (x : JsNumber) : add x nan = nan := by cases x <;> rfl

@[simp] theorem sub_nan_left (x : JsNumber) : sub nan x = nan := by cases x <;> rfl

@[simp] theorem sub_nan_right (x : JsNumber) : sub x nan = nan := by cases x <;> rfl

@[simp] theorem mul_nan_left (x : JsNumber) : mul nan x = nan := by cases x <;> rfl

@[simp] theorem mul_nan_right (x : JsNumber) : mul x nan = nan := by cases x <;> rfl

@[simp] theorem div_nan_left (x : JsNumber) : div nan x = nan := by cases x <;> rfl

@[simp] theorem div_nan_right (x : JsNumber) : div x nan = nan := by cases x <;> rfl

@[simp] theorem sin_nan : sin nan = nan := rfl

@[simp] theorem cos_nan : cos nan = nan := rfl

@[simp] theorem sqrt_nan : sqrt nan = nan := rfl

@[simp] theorem sq_nan : sq nan = nan := rfl

@[simp] theorem atan2_nan_left (x : JsNumber) : atan2 nan x = nan := by cases x <;> rfl

@[simp] theorem atan2_nan_right (x : JsNumber) : atan2 x nan = nan := by cases x <;> rfl

/-- Nothing is strictly below anything when the left side is `NaN`. -/
theorem not_lt_nan_left (x : JsNumber) : ¬ lt nan x := by
  cases x <;> exact fun h => h

end JsNumber

/-- A `NaN` in either query coordinate makes every Haversine distance
`NaN`. -/
theorem hav_nan (lat lng c d : JsNumber)
    (h : lat = JsNumber.nan ∨ lng = JsNumber.nan) :
    haversineDistance lat lng c d = JsNumber.nan := by
  rcases h with rfl | rfl
  · simp [haversineDistance, toRad]
  · simp [haversineDistance, toRad]

/-- The first component of a fold whose step returns either the new
element or the old state is the start value or a list member. -/
theorem foldl_fst_mem {α : Type}
    (step : (EdgeLocation × α) → EdgeLocation → (EdgeLocation × α))
    (hstep : ∀ st e, (step st e).1 = e ∨ (step st e).1 = st.1) :
    ∀ (l : List EdgeLocation) (st : EdgeLocation × α),
      (l.foldl step st).1 = st.1 ∨ (l.foldl step st).1 ∈ l := by
  intro l
  induction l with
  | nil => intro st; left; rfl
  | cons c t ih =>
    intro st
    rw [List.foldl_cons]
    rcases ih (step st c) with h | h
    · rcases hstep st c with h2 | h2
      · right
        rw [h, h2]
        exact List.mem_cons_self _ _
      · left
        rw [h, h2]
    · right
      exact List.mem_cons_of_mem _ h

/-- A fold whose step is the identity on every list element is the
identity. -/
theorem foldl_id_on {α β : Type} :
    ∀ (l : List α) (step : β → α → β),
      (∀ st e, e ∈ l → step st e = st) → ∀ st, l.foldl step st = st := by
  intro l
  induction l with
  | nil => intro step _ st; rfl
  | cons c t ih =>
    intro step h st
    rw [List.foldl_cons, h st c (List.mem_cons_self _ _)]
    exact ih step (fun st e he => h st e (List.mem_cons_of_mem _ he)) st

open Classical in
/-- C10: `findNearestEdge` is total on the full JavaScript number domain:
for every input (including `NaN` and the infinities) it returns a table
member; and when an input is `NaN`, every distance is `NaN`, no strict
comparison succeeds, and the first table entry is returned. -/
theorem findNearestEdge_total_nan :
    ∀ lat lng : JsNumber,
      findNearestEdge lat lng ∈ EDGE_LOCATIONS ∧
      ((lat = JsNumber.nan ∨ lng = JsNumber.nan) →
        (∀ e ∈ EDGE_LOCATIONS,
          haversineDistance lat lng (JsNumber.fin (e.lat : ℝ))
            (JsNumber.fin (e.lng : ℝ)) = JsNumber.nan) ∧
        findNearestEdge lat lng = EDGE_LOCATIONS.headI) := by
  intro lat lng
  constructor
  · rw [findNearestEdge]
    have hstep : ∀ (st : EdgeLocation × JsNumber) (e : EdgeLocation),
        ((fun (st : EdgeLocation × JsNumber) (edge : EdgeLocation) =>
          let dist := haversineDistance lat lng
            (JsNumber.fin (edge.lat : ℝ)) (JsNumber.fin (edge.lng : ℝ))
          if JsNumber.lt dist st.2 then (edge, dist) else st) st e).1 = e ∨
        ((fun (st : EdgeLocation × JsNumber) (edge : EdgeLocation) =>
          let dist := haversineDistance lat lng
            (JsNumber.fin (edge.lat : ℝ)) (JsNumber.fin (edge.lng : ℝ))
          if JsNumber.lt dist st.2 then (edge, dist) else st) st e).1 = st.1 := by
      intro st e
      rcases Classical.em (JsNumber.lt (haversineDistance lat lng
          (JsNumber.fin (e.lat : ℝ)) (JsNumber.fin (e.lng : ℝ))) st.2) with hc | hc
      · left
        show (if JsNumber.lt (haversineDistance lat lng
            (JsNumber.fin (e.lat : ℝ)) (JsNumber.fin (e.lng : ℝ))) st.2
          then (e, haversineDistance lat lng
            (JsNumber.fin (e.lat : ℝ)) (JsNumber.fin (e.lng : ℝ)))
          else st).1 = e
        rw [if_pos hc]
      · right
        show (if JsNumber.lt (haversineDistance lat lng
            (JsNumber.fin (e.lat : ℝ)) (JsNumber.fin (e.lng : ℝ))) st.2
          then (e, haversineDistance lat lng
            (JsNumber.fin (e.lat : ℝ)) (JsNumber.fin (e.lng : ℝ)))
          else st).1 = st.1
        rw [if_neg hc]
    rcases foldl_fst_mem _ hstep EDGE_LOCATIONS (EDGE_LOCATIONS.headI, JsNumber.inf)
      with h | h
    · rw [h]
      show EDGE_LOCATIONS.headI ∈ EDGE_LOCATIONS
      decide
    · exact h
  · intro h
    have hd : ∀ e ∈ EDGE_LOCATIONS, haversineDistance lat lng
        (JsNumber.fin (e.lat : ℝ)) (JsNumber.fin (e.lng : ℝ)) = JsNumber.nan :=
      fun e _ => hav_nan _ _ _ _ h
    refine ⟨hd, ?_⟩
    rw [findNearestEdge]
    have hid := foldl_id_on EDGE_LOCATIONS
      (fun (st : EdgeLocation × JsNumber) (edge : EdgeLocation) =>
        let dist := haversineDistance lat lng
          (JsNumber.fin (edge.lat : ℝ)) (JsNumber.fin (edge.lng : ℝ))
        if JsNumber.lt dist st.2 then (edge, dist) else st)
      (by
        intro st e he
        show (if JsNumber.lt (haversineDistance lat lng
            (JsNumber.fin (e.lat : ℝ)) (JsNumber.fin (e.lng : ℝ))) st.2
          then (e, haversineDistance lat lng
            (JsNumber.fin (e.lat : ℝ)) (JsNumber.fin (e.lng : ℝ)))
          else st) = st
        rw [hd e he, if_neg (JsNumber.not_lt_nan_left st.2)])
      (EDGE_LOCATIONS.headI, JsNumber.inf)
    rw [hid]

/-- Concrete check for C10: querying with latitude `NaN` returns the
first table entry. -/
theorem findNearestEdge_total_nan_witness :
    findNearestEdge JsNumber.nan (JsNumber.fin 0) = sjcEdge := by
  have h := ((findNearestEdge_total_nan JsNumber.nan (JsNumber.fin 0)).2 (Or.inl rfl)).2
  rw [h]
  rfl

theorem splitNl_ne_nil (l : List Char) : splitNl l ≠ [] := by
  cases l with
  | nil => simp [splitNl]
  | cons c cs =>
    by_cases h : c = '\n' <;> simp [splitNl, h]

/-- Splitting a newline-free text yields a single segment. -/
theorem splitNl_nlfree (b : List Char) (hb : '\n' ∉ b) : splitNl b = [b] := by
  induction b with
  | nil => rfl
  | cons c cs ih =>
    have hc : c ≠ '\n' := fun h => hb (h ▸ List.mem_cons_self c cs)
    have hcs : '\n' ∉ cs := fun h => hb (List.mem_cons_of_mem _ h)
    rw [splitNl, if_neg hc, ih hcs]
    rfl

/-- Splitting after a newline-free prefix prepends that prefix to the
first segment. -/
theorem splitNl_append_nlfree (b t : List Char) (hb : '\n' ∉ b) :
    splitNl (b ++ t) = (b ++ (splitNl t).headI) :: (splitNl t).tail := by
  induction b with
  | nil =>
    cases h : splitNl t with
    | nil => exact absurd h (splitNl_ne_nil t)
    | cons a r => simp [h]
  | cons c cs ih =>
    have hc : c ≠ '\n' := fun h => hb (h ▸ List.mem_cons_self c cs)
    have hcs : '\n' ∉ cs := fun h => hb (List.mem_cons_of_mem _ h)
    rw [List.cons_append, splitNl, if_neg hc, ih hcs]
    simp

/-- With a newline-free buffer, the split-based line stage is the fold of
the character-level step. -/
theorem lineChunk_eq_foldl (parse : List Char → ParseOutcome) :
    ∀ (text b acc : List Char), '\n' ∉ b →
      lineChunk parse (b, acc) text = text.foldl (lineStep parse) (b, acc) := by
  intro text
  induction text with
  | nil =>
    intro b acc hb
    rw [lineChunk]
    simp [splitNl_nlfree b hb]
  | cons c cs ih =>
    intro b acc hb
    by_cases hc : c = '\n'
    · subst hc
      have h1 : lineChunk parse (b, acc) ('\n' :: cs) =
          lineChunk parse ([], processLine parse acc b) cs := by
        rw [lineChunk, lineChunk]
        have hsp : splitNl (b ++ '\n' :: cs) = (b ++ []) :: splitNl cs := by
          rw [splitNl_append_nlfree b _ hb]
          rw [show splitNl ('\n' :: cs) = [] :: splitNl cs from by rw [splitNl, if_pos rfl]]
          rfl
        rw [hsp]
        cases hcs : splitNl cs with
        | nil => exact absurd hcs (splitNl_ne_nil cs)
        | cons a r =>
          simp [hcs, List.getLastD_cons]
      rw [h1, ih [] (processLine parse acc b) (by simp), List.foldl_cons]
      simp [lineStep]
    · have h1 : lineChunk parse (b, acc) (c :: cs) =
          lineChunk parse (b ++ [c], acc) cs := by
        rw [lineChunk, lineChunk]
        rw [show b ++ c :: cs = (b ++ [c]) ++ cs from by simp]
      have hb' : '\n' ∉ b ++ [c] := by
        intro hmem
        rcases List.mem_append.mp hmem with h | h
        · exact hb h
        · simp at h
          exact hc h.symm
      rw [h1, ih _ acc hb', List.foldl_cons]
      simp [lineStep, hc]

/-- The fold of the character-level step keeps the buffer newline-free. -/
theorem foldl_lineStep_nlfree (parse : List Char → ParseOutcome) :
    ∀ (t : List Char) (st : List Char × List Char), '\n' ∉ st.1 →
      '\n' ∉ (t.foldl (lineStep parse) st).1 := by
  intro t
  induction t with
  | nil => intro st h; exact h
  | cons c cs ih =>
    intro st h
    rw [List.foldl_cons]
    apply ih
    by_cases hc : c = '\n'
    · simp [lineStep, hc]
    · simp only [lineStep, if_neg hc]
      intro hmem
      rcases List.mem_append.mp hmem with hm | hm
      · exact h hm
      · simp at hm
        exact hc hm.symm

/-- The line stage keeps the buffer newline-free. -/
theorem lineChunk_nlfree (parse : List Char → ParseOutcome)
    (b acc text : List Char) (hb : '\n' ∉ b) :
    '\n' ∉ (lineChunk parse (b, acc) text).1 := by
  rw [lineChunk_eq_foldl parse text b acc hb]
  exact foldl_lineStep_nlfree parse text (b, acc) hb

/-- The line stage is compositional in the processed text. -/
theorem lineChunk_append (parse : List Char → ParseOutcome)
    (st : List Char × List Char) (t1 t2 : List Char) (h : '\n' ∉ st.1) :
    lineChunk parse st (t1 ++ t2) = lineChunk parse (lineChunk parse st t1) t2 := by
  cases st with
  | mk b acc =>
    have h1 : '\n' ∉ (lineChunk parse (b, acc) t1).1 := lineChunk_nlfree parse b acc t1 h
    cases hl : lineChunk parse (b, acc) t1 with
    | mk b' acc' =>
      rw [lineChunk_eq_foldl parse (t1 ++ t2) b acc h, List.foldl_append,
        ← lineChunk_eq_foldl parse t1 b acc h, hl]
      rw [hl] at h1
      exact (lineChunk_eq_foldl parse t2 b' acc' h1).symm

/-- The emitted-text accumulator of the decode fold is a prefix
invariant. -/
theorem decodeChunk_go :
    ∀ (bs : List Nat) (s : Utf8State) (t : List Char),
      bs.foldl (fun p b => ((utf8Step p.1 b).1, p.2 ++ (utf8Step p.1 b).2)) (s, t) =
        ((decodeChunk s bs).1, t ++ (decodeChunk s bs).2) := by
  intro bs
  induction bs with
  | nil =>
    intro s t
    simp [decodeChunk]
  | cons b rest ih =>
    intro s t
    rw [List.foldl_cons]
    show rest.foldl _ ((utf8Step s b).1, t ++ (utf8Step s b).2) = _
    rw [ih]
    rw [show decodeChunk s (b :: rest) =
      rest.foldl (fun p b => ((utf8Step p.1 b).1, p.2 ++ (utf8Step p.1 b).2))
        ((utf8Step s b).1, [] ++ (utf8Step s b).2) from rfl]
    rw [ih]
    simp

/-- Decoding is compositional in the byte stream. -/
theorem decodeChunk_append (s : Utf8State) (a b : List Nat) :
    decodeChunk s (a ++ b) =
      ((decodeChunk (decodeChunk s a).1 b).1,
        (decodeChunk s a).2 ++ (decodeChunk (decodeChunk s a).1 b).2) := by
  cases hda : decodeChunk s a with
  | mk d1 t1 =>
    have hfold : a.foldl (fun p b => ((utf8Step p.1 b).1, p.2 ++ (utf8Step p.1 b).2))
        (s, []) = (d1, t1) := hda
    rw [decodeChunk, List.foldl_append, hfold, decodeChunk_go b d1 t1]

/-- Chunk processing keeps the buffer newline-free. -/
theorem processChunk_nlfree (parse : List Char → ParseOutcome)
    (st : ReassemblerState) (bs : List Nat) (h : '\n' ∉ st.buffer) :
    '\n' ∉ (processChunk parse st bs).buffer := by
  exact lineChunk_nlfree parse st.buffer st.accumulated (decodeChunk st.dec bs).2 h

/-- Chunk processing is compositional in the byte stream. -/
theorem processChunk_append (parse : List Char → ParseOutcome)
    (st : ReassemblerState) (a b : List Nat) (h : '\n' ∉ st.buffer) :
    processChunk parse st (a ++ b) = processChunk parse (processChunk parse st a) b := by
  simp only [processChunk, decodeChunk_append st.dec a b]
  rw [lineChunk_append parse (st.buffer, st.accumulated) _ _ h]

/-- Folding a list of chunks equals processing their concatenation as one
chunk. -/
theorem runChunks_join (parse : List Char → ParseOutcome) :
    ∀ (chunks : List (List Nat)) (st : ReassemblerState), '\n' ∉ st.buffer →
      chunks.foldl (processChunk parse) st = processChunk parse st chunks.flatten := by
  intro chunks
  induction chunks with
  | nil =>
    intro st h
    show st = processChunk parse st []
    simp [processChunk, decodeChunk, lineChunk, splitNl_nlfree st.buffer h]
  | cons c rest ih =>
    intro st h
    rw [List.foldl_cons, ih _ (processChunk_nlfree parse st c h),
      ← processChunk_append parse st c rest.flatten h]
    rfl

/-- Joining the singleton-chunk split recovers the byte list. -/
theorem join_singletons {α : Type} (l : List α) :
    (l.map (fun a => [a])).flatten = l := by
  induction l with
  | nil => rfl
  | cons a t ih => simp [ih]

/-- C3: chunking invariance — feeding a byte sequence as one single chunk
produces the same final state (in particular the same `accumulated`) as
feeding it split at every byte boundary, even when those boundaries fall
inside multi-byte UTF-8 sequences, lines, or payloads. -/
theorem chunking_invariance :
    ∀ (parse : List Char → ParseOutcome) (bs : List Nat),
      (runChunks parse [bs]).accumulated =
        (runChunks parse (bs.map (fun b => [b]))).accumulated := by
  intro parse bs
  have h0 : '\n' ∉ initReassembler.buffer := by simp [initReassembler]
  rw [runChunks, runChunks, runChunks_join parse [bs] _ h0,
    runChunks_join parse (bs.map (fun b => [b])) _ h0]
  rw [show List.flatten [bs] = bs from by simp, join_singletons bs]

/-- The pattern is a prefix of itself followed by anything. -/
theorem leadsWith_append (pat rest : List Char) : leadsWith pat (pat ++ rest) = true := by
  induction pat with
  | nil => rfl
  | cons c ps ih => simp [leadsWith, ih]

/-- On a line whose trimmed form is `data: ` followed by a payload other
than the sentinel, the per-line rule is exactly the parse-or-raw-fallback
step. -/
theorem processLine_data (parse : List Char → ParseOutcome) (acc line p : List Char)
    (htrim : jsTrim line = dataMarker ++ p) (hne : p ≠ doneSentinel) :
    processLine parse acc line =
      match parse p with
      | ParseOutcome.failure => acc ++ p
      | ParseOutcome.parsedNoResponse => acc
      | ParseOutcome.parsedResponse s => acc ++ s := by
  simp only [processLine]
  rw [htrim]
  rw [if_pos (leadsWith_append dataMarker p)]
  have hdrop : (dataMarker ++ p).drop 6 = p := rfl
  rw [hdrop, if_neg hne]

/-- C4: a complete `data: [DONE]` line leaves `accumulated` unchanged and
does not terminate anything — the fold simply continues over the
remaining lines as if the sentinel line were absent — and no payload
other than `[DONE]` is special-cased: every other `data: ` payload goes
through the ordinary parse-or-raw-fallback rule. -/
theorem done_sentinel_skipped :
    ∀ (parse : List Char → ParseOutcome) (acc : List Char),
      processLine parse acc doneLine = acc ∧
      (∀ l1 l2 : List (List Char),
        (l1 ++ doneLine :: l2).foldl (processLine parse) acc =
          (l1 ++ l2).foldl (processLine parse) acc) ∧
      (∀ line p : List Char, jsTrim line = dataMarker ++ p → p ≠ doneSentinel →
        processLine parse acc line =
          match parse p with
          | ParseOutcome.failure => acc ++ p
          | ParseOutcome.parsedNoResponse => acc
          | ParseOutcome.parsedResponse s => acc ++ s) := by
  intro parse acc
  have hskip : ∀ a : List Char, processLine parse a doneLine = a := fun a => rfl
  refine ⟨hskip acc, ?_, ?_⟩
  · intro l1 l2
    rw [List.foldl_append, List.foldl_append, List.foldl_cons, hskip]
  · intro line p htrim hne
    exact processLine_data parse acc line p htrim hne

/-- Concrete check for C4: the sentinel line is skipped while an ordinary
payload line is appended. -/
theorem done_sentinel_skipped_witness :
    processLine parseNever [] doneLine = [] ∧
    processLine parseNever [] helloLine = [] ++ helloChars := by
  refine ⟨(done_sentinel_skipped parseNever []).1, ?_⟩
  exact (done_sentinel_skipped parseNever []).2.2 helloLine helloChars
    (by decide) (by decide)

/-- Counterexample to C5 as stated: the payload `[DONE]` fails JSON
parsing (modelled by a parse function that throws on it, as `JSON.parse`
does), yet the per-line step does not append the raw payload — the
sentinel check fires first. -/
theorem raw_fallback_done_cex :
    parseNever doneSentinel = ParseOutcome.failure ∧
    processLine parseNever [] doneLine ≠ ([] : List Char) ++ doneSentinel := by
  exact ⟨rfl, by decide⟩

/-- C5 (amended with the `[DONE]` carve-out): for every complete `data: `
line whose payload is not the sentinel, a payload on which the parse
block throws is appended raw (and no error is raised for that line), and
a payload that parses without a truthy `response` field appends
nothing. -/
theorem raw_fallback_amended :
    ∀ (parse : List Char → ParseOutcome) (acc line p : List Char),
      jsTrim line = dataMarker ++ p → p ≠ doneSentinel →
      (parse p = ParseOutcome.failure → processLine parse acc line = acc ++ p) ∧
      (parse p = ParseOutcome.parsedNoResponse → processLine parse acc line = acc) := by
  intro parse acc line p htrim hne
  constructor
  · intro hp
    rw [processLine_data parse acc line p htrim hne, hp]
  · intro hp
    rw [processLine_data parse acc line p htrim hne, hp]

/-- Concrete check for C5 (amended): a non-parsing payload is appended
raw; a parsed payload without a response field appends nothing. -/
theorem raw_fallback_amended_witness :
    processLine parseNever [] hiLine = [] ++ hiChars ∧
    processLine parseNoResp [] hiLine = [] := by
  constructor
  · exact (raw_fallback_amended parseNever [] hiLine hiChars (by decide) (by decide)).1 rfl
  · exact (raw_fallback_amended parseNoResp [] hiLine hiChars (by decide) (by decide)).2 rfl

/-- Counterexample to C2 as stated: feeding the single chunk
`"data: hello"` (no trailing newline) and then ending the stream leaves a
complete unterminated `data: ` line in the retained buffer, yet the final
`accumulated` is empty — the loop exits on `done` without the final flush
the claim describes, losing the payload that the per-line rule would have
produced. -/
theorem stream_end_drops_unterminated_cex :
    (runChunks parseNever [[100, 97, 116, 97, 58, 32, 104, 101, 108, 108, 111]]).buffer =
      helloLine ∧
    (runChunks parseNever [[100, 97, 116, 97, 58, 32, 104, 101, 108, 108, 111]]).accumulated =
      ([] : List Char) ∧
    processLine parseNever [] helloLine = helloChars := by
  refine ⟨?_, ?_, ?_⟩ <;> decide

/-- C2 (amended): when the source signals end-of-data the loop exits
without a final flush: text after the last newline — even a complete
unterminated `data: ` line — stays in `buffer` and never contributes to
`accumulated`. -/
theorem stream_end_no_final_flush :
    ∀ (parse : List Char → ParseOutcome) (st : List Char × List Char) (t v : List Char),
      '\n' ∉ st.1 → '\n' ∉ v →
      (lineChunk parse st (t ++ v)).2 = (lineChunk parse st t).2 ∧
      (lineChunk parse st (t ++ v)).1 = (lineChunk parse st t).1 ++ v := by
  intro parse st t v h1 h2
  rw [lineChunk_append parse st t v h1]
  cases st with
  | mk b acc =>
    have hb' : '\n' ∉ (lineChunk parse (b, acc) t).1 := lineChunk_nlfree parse b acc t h1
    cases hl : lineChunk parse (b, acc) t with
    | mk b' acc' =>
      rw [hl] at hb'
      have hbv : '\n' ∉ b' ++ v := by
        intro hm
        rcases List.mem_append.mp hm with hm | hm
        · exact hb' hm
        · exact h2 hm
      constructor
      · show (lineChunk parse (b', acc') v).2 = acc'
        rw [lineChunk]
        simp [splitNl_nlfree _ hbv]
      · show (lineChunk parse (b', acc') v).1 = b' ++ v
        rw [lineChunk]
        simp [splitNl_nlfree _ hbv]

/-- Concrete check for the amended C2: an unterminated `data: hello`
after a complete line changes only the buffer, never `accumulated`. -/
theorem stream_end_no_final_flush_witness :
    (lineChunk parseNever ([], []) (doneLine ++ helloLine)).2 =
      (lineChunk parseNever ([], []) doneLine).2 ∧
    (lineChunk parseNever ([], []) (doneLine ++ helloLine)).1 =
      (lineChunk parseNever ([], []) doneLine).1 ++ helloLine :=
  stream_end_no_final_flush parseNever ([], []) doneLine helloLine
    (by decide) (by decide)

/-- One line never shrinks `accumulated`. -/
theorem processLine_len (parse : List Char → ParseOutcome) (acc line : List Char) :
    acc.length ≤ (processLine parse acc line).length := by
  simp only [processLine]
  by_cases h1 : (leadsWith dataMarker (jsTrim line)) = true
  · rw [if_pos h1]
    by_cases h2 : (jsTrim line).drop 6 = doneSentinel
    · rw [if_pos h2]
    · rw [if_neg h2]
      cases parse ((jsTrim line).drop 6) <;> simp
  · rw [if_neg h1]

/-- C6: across every chunk-processing step, from any prior state, the
length of `accumulated` is monotonically non-decreasing. -/
theorem accumulated_monotone :
    ∀ (parse : List Char → ParseOutcome) (st : ReassemblerState) (bs : List Nat),
      st.accumulated.length ≤ (processChunk parse st bs).accumulated.length := by
  intro parse st bs
  have hfold : ∀ (lines : List (List Char)) (a : List Char),
      a.length ≤ (lines.foldl (processLine parse) a).length := by
    intro lines
    induction lines with
    | nil => intro a; exact le_refl _
    | cons l rest ih =>
      intro a
      rw [List.foldl_cons]
      exact le_trans (processLine_len parse a l) (ih _)
  show st.accumulated.length ≤
    ((splitNl (st.buffer ++ (decodeChunk st.dec bs).2)).dropLast.foldl
      (processLine parse) st.accumulated).length
  exact hfold _ _
